import Mathlib

set_option maxHeartbeats 1000000
set_option maxRecDepth 10000
set_option linter.unusedSectionVars false

/-!
Shallow embedding of the `learn_halo2` Fibonacci circuits.

The repository contains three circuit variants:
* `src/bin/fib_dynamic.rs` — a fixed-size (`MAX_N = 370` rows) trace with a
  multiplicative-inverse zero-test gadget on the counter column
  (namespace `DynFib` below);
* `src/main.rs` — a variant with an explicit boolean `s` ("active") advice
  column, a first-row selector and a step selector (namespace `MainFib`);
* `src/bin/fib_simple.rs` — a minimal variable-length Fibonacci chain
  (namespace `SimpleFib`).

Field elements are external to the repository: the circuits are generic over
`F: FieldExt` and only use ring operations plus `invert().unwrap_or_else(zero)`.
We therefore embed over an arbitrary commutative ring `F` together with a
function `finv : F → F` standing for the backend field's inverse-of-zero-is-zero
inversion; theorems that need it take the hypothesis that `finv` really inverts
every nonzero element, which the concrete instantiation `ZMod 373` discharges
via Fermat's little theorem.
-/

namespace DynFib

/-- Trace capacity of the dynamic variant, `FibChip::MAX_N` in
`src/bin/fib_dynamic.rs`. -/
def MAX_N : ℕ := 370

/-- One trace row of the dynamic variant: the four advice columns
`[n, l, r, n_inv]` of `FibConfig`. -/
structure DRow (F : Type) where
  n : F
  l : F
  r : F
  n_inv : F
deriving DecidableEq

variable {F : Type} [CommRing F] [DecidableEq F] (finv : F → F)

/-- The quantity `is_n_zero = 1 - n * n_inv` computed on a row, as in
`FibChip::assign_next_row` and queried by the `fib` gate. -/
def isZeroOf (row : DRow F) : F := 1 - row.n * row.n_inv

/-- Value computation of `FibChip::assign_next_row`
(`src/bin/fib_dynamic.rs` lines 114–122): the successor row of a row, with
`next_n = is_n_zero * n + (1 - is_n_zero) * (n - 1)`, `next_l = r`,
`next_r = is_n_zero * r + (1 - is_n_zero) * (l + r)` and
`next_n_inv = next_n.invert().unwrap_or_else(zero)` (here `finv next_n`). -/
def nextRow (row : DRow F) : DRow F :=
  { n := isZeroOf row * row.n + (1 - isZeroOf row) * (row.n - 1)
    l := row.r
    r := isZeroOf row * row.r + (1 - isZeroOf row) * (row.l + row.r)
    n_inv := finv (isZeroOf row * row.n + (1 - isZeroOf row) * (row.n - 1)) }

/-- Row 0 as assigned by `FibChip::assign_setup`: `n`, the seeds `n_0`, `n_1`,
and `n_inv = n.invert().unwrap_or_else(zero)`. -/
def setupRow (n0 n1 n : F) : DRow F := ⟨n, n0, n1, finv n⟩

/-- The trace of the dynamic circuit as a function of the row index: row 0 is
`assign_setup`, each later row is produced from its predecessor by
`assign_next_row`, exactly as `FibCircuit::synthesize` iterates. -/
def trace (n0 n1 n : F) : ℕ → DRow F
  | 0 => setupRow finv n0 n1 n
  | k + 1 => nextRow finv (trace n0 n1 n k)

/-- The list of `k` consecutive rows starting from a given row. -/
def traceFrom (row : DRow F) : ℕ → List (DRow F)
  | 0 => []
  | k + 1 => row :: traceFrom (nextRow finv row) k

/-- The complete assigned trace (rows `0 .. MAX_N - 1`) of the dynamic
circuit, materialized as a list. -/
def traceList (n0 n1 n : F) : List (DRow F) := traceFrom finv (setupRow finv n0 n1 n) MAX_N

/-- The single polynomial of the `"n inv"` gate of
`FibChip::configure` (`src/bin/fib_dynamic.rs` lines 51–58):
`n * (1 - n * n_inv)`, required to vanish on selector-enabled rows. -/
def gateNInvExpr (cur : DRow F) : F := cur.n * (1 - cur.n * cur.n_inv)

/-- The five polynomials of the `"fib"` gate of `FibChip::configure`
(`src/bin/fib_dynamic.rs` lines 60–86), querying the current and next row;
all must vanish on selector-enabled rows. -/
def gateFibExprs (cur next : DRow F) : List F :=
  [next.l - cur.r,
   isZeroOf cur * (next.r - cur.r),
   isZeroOf cur * next.n,
   (1 - isZeroOf cur) * (cur.l + cur.r - next.r),
   (1 - isZeroOf cur) * (cur.n - next.n - 1)]

/-- Rows on which the shared selector is enabled: `assign_setup` enables row
0; `assign_next_row`, called with offsets `0 .. MAX_N - 2`, enables row
`offset + 1` unless `offset = MAX_N - 2` (`src/bin/fib_dynamic.rs` lines
124–129 and 157). -/
def dynEnabledRows : List ℕ :=
  0 :: (List.range (MAX_N - 1)).flatMap (fun off => if off = MAX_N - 2 then [] else [off + 1])

/-- Rows that receive advice assignments in `FibCircuit::synthesize`: row 0
from `assign_setup` and row `offset + 1` for each `assign_next_row` call at
offsets `0 .. MAX_N - 2`. -/
def dynAssignedRows : List ℕ := 0 :: (List.range (MAX_N - 1)).map (· + 1)

/-- Default cell values used when a row is looked up out of range (the mock
backend treats unassigned cells as zero). -/
def defaultDRow : DRow F := ⟨0, 0, 0, 0⟩

/-- Both gates of the dynamic circuit hold at row `i` of a trace. -/
def rowGatesOk (rows : List (DRow F)) (i : ℕ) : Bool :=
  decide (gateNInvExpr (rows.getD i defaultDRow) = 0) &&
  (gateFibExprs (rows.getD i defaultDRow) (rows.getD (i + 1) defaultDRow)).all
    (fun e => decide (e = 0))

/-- The four public inputs of the dynamic circuit, in instance-column order
`[l0, l1, n, result]` as bound by `FibChip::expose_public`. -/
structure DInst (F : Type) where
  i0 : F
  i1 : F
  i2 : F
  i3 : F

/-- Modelled from the spec: the external backend's checker contract (spec §6)
— checking succeeds iff every gate polynomial evaluates to zero on every
selector-enabled row and every public binding holds.  The bindings are those
declared by `FibChip::expose_public`: `l[0] = instance[0]`,
`l[1] = instance[1]`, `n[0] = instance[2]`, `l[MAX_N - 1] = instance[3]`. -/
def dynCheckTrace (rows : List (DRow F)) (inst : DInst F) : Bool :=
  dynEnabledRows.all (fun i => rowGatesOk rows i) &&
  decide ((rows.getD 0 defaultDRow).l = inst.i0) &&
  decide ((rows.getD 1 defaultDRow).l = inst.i1) &&
  decide ((rows.getD 0 defaultDRow).n = inst.i2) &&
  decide ((rows.getD (MAX_N - 1) defaultDRow).l = inst.i3)

/-- End-to-end run of the dynamic circuit against public inputs: build the
trace from the circuit fields `(n_0, n_1, n)` as `synthesize` does, then check
it, as `MockProver::run` + `verify` in `fn main`. -/
def dynChecker (n0 n1 n : F) (inst : DInst F) : Bool :=
  dynCheckTrace (traceList finv n0 n1 n) inst

/-- The `Result`-returning trace builder `FibCircuit::synthesize`
(`src/bin/fib_dynamic.rs` lines 217–261).  The source performs no bound check
on `n`: its only error paths are backend `assign_advice` / `enable` calls,
which (spec §6) do not fail for rows within capacity, so the builder always
returns `Ok` with the fully assigned trace. -/
def dynSynthesize (n0 n1 n : F) : Except Unit (List (DRow F)) :=
  Except.ok (traceList finv n0 n1 n)

/-- A trace with the `r` cell of row `j` overwritten by `c` (used to express
a padding row whose result value drifts). -/
def setRowR (rows : List (DRow F)) (j : ℕ) (c : F) : List (DRow F) :=
  rows.set j
    { n := (rows.getD j defaultDRow).n
      l := (rows.getD j defaultDRow).l
      r := c
      n_inv := (rows.getD j defaultDRow).n_inv }

end DynFib

namespace MainFib

/-- One trace row of the `src/main.rs` variant: advice columns
`[n, l, r, s]`. -/
structure MRow (F : Type) where
  n : F
  l : F
  r : F
  s : F
deriving DecidableEq

/-- The two selectors of the `src/main.rs` variant: `fist_row_selector`
(sic, as in the source) and `fib_selector`. -/
inductive MSel where
  | fistRow
  | fibS
deriving DecidableEq

/-- The single polynomial of the `"start status"` gate of
`FibChip::configure` (`src/main.rs` lines 71–84), with the
`first_row` selector factor stripped (it is the gate's enabling selector):
`(fixed - l) * (fixed - r) * (fixed - s)`. -/
def gateStartStatus {F : Type} [CommRing F] (fixed l r s : F) : F :=
  (fixed - l) * (fixed - r) * (fixed - s)

/-- The two polynomials of the `"custom selector"` gate of
`FibChip::configure` (`src/main.rs` lines 86–97), with the `fib_s` selector
factor stripped: `s * (1 - s)` (booleanity) and `s_next * (1 - s)`
("cannot go back to 1 once become 0"). -/
def gateCustomSelector {F : Type} [CommRing F] (s s_next : F) : List F :=
  [s * (1 - s), s_next * (1 - s)]

/-- Effect of `FibChip::assign_first_row` (`src/main.rs` lines 140–168) at
its offset: which selectors it enables there, and the advice values it
assigns (`n` copied from `instance[0]`, `l`, `r`, `s` all set to the
constant one). -/
structure FirstRowEffect (F : Type) where
  selectors : List MSel
  vals : MRow F

/-- `FibChip::assign_first_row` enables `fist_row_selector` and
`fib_selector` at row 0 and assigns `(n, l, r, s) = (instance[0], 1, 1, 1)`. -/
def assignFirstRow {F : Type} [CommRing F] (inst0 : F) : FirstRowEffect F :=
  { selectors := [MSel.fistRow, MSel.fibS]
    vals := ⟨inst0, 1, 1, 1⟩ }

end MainFib

namespace SimpleFib

/-- Rows assigned by `FibCircuit::synthesize` of `src/bin/fib_simple.rs`
(lines 144–169): `assign_setup` fills row 0, then `assign_row` fills one row
per loop iteration `row in 1 .. n`. -/
def assignedRows (n : ℕ) : List ℕ := 0 :: List.range' 1 (n - 1)

end SimpleFib

/-- Modelled from the spec: the independent iterative Fibonacci reference
with seeds `(0, 1)` — the pair after `k` shift-and-add steps, so that the
`k`-th trace row of the dynamic circuit holds `(l, r) = fibP k`. -/
def fibP : ℕ → ℕ × ℕ
  | 0 => (0, 1)
  | k + 1 => ((fibP k).2, (fibP k).1 + (fibP k).2)

/-- Modelled from the spec: the reference Fibonacci value for input `n` and
seeds `(0, 1)`; `fibRef 5 = 8`, matching the spec's concrete scenario. -/
def fibRef (k : ℕ) : ℕ := (fibP k).2

instance fact_prime_373 : Fact (Nat.Prime 373) := ⟨by norm_num⟩

/-- Concrete backend inversion on the prime field `ZMod 373` (the smallest
prime field whose characteristic exceeds `MAX_N`), via Fermat's little
theorem: `x⁻¹ = x ^ (373 - 2)` for nonzero `x`. -/
def finv373 : ZMod 373 → ZMod 373 := fun x => x ^ 371

/-- Constant flag sequence used to instantiate the custom-selector
monotonicity theorem: active for two rows, then inactive. -/
def padSeq : ℕ → ZMod 373 := fun i => if i < 2 then 1 else 0

section Infrastructure

variable {F : Type} [CommRing F] [DecidableEq F] (finv : F → F)

lemma hinv373 : ∀ x : ZMod 373, x ≠ 0 → x * finv373 x = 1 := by
  intro x hx
  have h : x ^ (373 - 1) = 1 := ZMod.pow_card_sub_one_eq_one hx
  norm_num at h
  rw [finv373, ← pow_succ']
  exact h

lemma hchar373 : (DynFib.MAX_N : ℕ) < ringChar (ZMod 373) := by
  rw [ZMod.ringChar_zmod_n]
  norm_num [DynFib.MAX_N]

lemma cast_ne_zero_of_le_char (hchar : (DynFib.MAX_N : ℕ) < ringChar F)
    (k : ℕ) (h1 : 0 < k) (h2 : k ≤ DynFib.MAX_N) : (k : F) ≠ 0 := by
  intro h
  have hdvd : ringChar F ∣ k := (ringChar.spec F k).mp h
  have := Nat.le_of_dvd h1 hdvd
  omega

lemma getD_set_eq_of_lt {α : Type} (l : List α) (j : ℕ) (v d : α) (h : j < l.length) :
    (l.set j v).getD j d = v := by
  rw [List.getD_eq_getElem _ _ (by simpa using h)]
  simp [List.getElem_set]

lemma getD_set_ne_of_ne {α : Type} (l : List α) (i j : ℕ) (v d : α) (hne : i ≠ j) :
    (l.set j v).getD i d = l.getD i d := by
  rcases Nat.lt_or_ge i l.length with hlt | hge
  · rw [List.getD_eq_getElem _ _ (by simpa using hlt), List.getD_eq_getElem _ _ hlt]
    simp [List.getElem_set, hne.symm]
  · rw [List.getD_eq_default _ _ (by simpa using hge), List.getD_eq_default _ _ hge]

namespace DynFib

lemma traceFrom_length (k : ℕ) : ∀ row : DRow F, (traceFrom finv row k).length = k := by
  induction k with
  | zero => intro row; rfl
  | succ k ih =>
    intro row
    show (row :: traceFrom finv (nextRow finv row) k).length = k + 1
    rw [List.length_cons, ih]

lemma traceList_length (n0 n1 n : F) : (traceList finv n0 n1 n).length = MAX_N :=
  traceFrom_length finv MAX_N _

lemma traceFrom_getD (d : DRow F) (k : ℕ) :
    ∀ i : ℕ, ∀ row : DRow F, i < k →
      (traceFrom finv row k).getD i d = (nextRow finv)^[i] row := by
  induction k with
  | zero => intro i row h; omega
  | succ k ih =>
    intro i row h
    cases i with
    | zero =>
      show (row :: traceFrom finv (nextRow finv row) k).getD 0 d = row
      exact List.getD_cons_zero
    | succ i =>
      show (row :: traceFrom finv (nextRow finv row) k).getD (i + 1) d = _
      rw [List.getD_cons_succ, ih i (nextRow finv row) (by omega),
        Function.iterate_succ_apply]

lemma trace_eq_iterate (n0 n1 n : F) :
    ∀ k : ℕ, trace finv n0 n1 n k = (nextRow finv)^[k] (setupRow finv n0 n1 n) := by
  intro k
  induction k with
  | zero => rfl
  | succ k ih =>
    show nextRow finv (trace finv n0 n1 n k) = _
    rw [ih]
    exact (Function.iterate_succ_apply' (nextRow finv) k (setupRow finv n0 n1 n)).symm

lemma traceList_getD (n0 n1 n : F) (i : ℕ) (hi : i < MAX_N) (d : DRow F) :
    (traceList finv n0 n1 n).getD i d = trace finv n0 n1 n i := by
  rw [traceList, traceFrom_getD finv d MAX_N i _ hi, trace_eq_iterate]

lemma trace_honest (n0 n1 n : F) :
    ∀ k : ℕ, (trace finv n0 n1 n k).n_inv = finv ((trace finv n0 n1 n k).n) := by
  intro k
  cases k with
  | zero => rfl
  | succ k => rfl

lemma mem_dynEnabledRows (i : ℕ) : i ∈ dynEnabledRows ↔ i ≤ MAX_N - 2 := by
  simp only [dynEnabledRows, List.mem_cons, List.mem_flatMap, List.mem_range]
  constructor
  · rintro (rfl | ⟨o, ho, hm⟩)
    · simp [MAX_N]
    · by_cases h : o = MAX_N - 2
      · rw [if_pos h] at hm
        simp at hm
      · rw [if_neg h] at hm
        simp only [List.mem_singleton] at hm
        subst hm
        revert ho h
        simp [MAX_N]
        omega
  · intro hi
    rcases Nat.eq_zero_or_pos i with rfl | hpos
    · exact Or.inl rfl
    · refine Or.inr ⟨i - 1, ?_, ?_⟩
      · revert hi
        simp [MAX_N]
        omega
      · rw [if_neg (by revert hi; simp [MAX_N]; omega)]
        simp
        omega

lemma mem_dynAssignedRows (i : ℕ) : i ∈ dynAssignedRows ↔ i ≤ MAX_N - 1 := by
  simp only [dynAssignedRows, List.mem_cons, List.mem_map, List.mem_range]
  constructor
  · rintro (rfl | ⟨o, ho, rfl⟩)
    · simp [MAX_N]
    · revert ho
      simp [MAX_N]
      omega
  · intro hi
    rcases Nat.eq_zero_or_pos i with rfl | hpos
    · exact Or.inl rfl
    · exact Or.inr ⟨i - 1, by revert hi; simp [MAX_N]; omega, by omega⟩

end DynFib

end Infrastructure

section CoreLemmas

variable {F : Type} [CommRing F] [DecidableEq F] (finv : F → F)

namespace DynFib

lemma nextRow_of_n_zero (row : DRow F) (h : row.n = 0) :
    nextRow finv row = ⟨0, row.r, row.r, finv 0⟩ := by
  have hiz : isZeroOf row = 1 := by simp [isZeroOf, h]
  have h1 : isZeroOf row * row.n + (1 - isZeroOf row) * (row.n - 1) = 0 := by
    rw [hiz, h]
    ring
  have h2 : isZeroOf row * row.r + (1 - isZeroOf row) * (row.l + row.r) = row.r := by
    rw [hiz]
    ring
  unfold nextRow
  rw [h1, h2]

lemma nextRow_of_live (row : DRow F) (hprod : row.n * row.n_inv = 1) :
    nextRow finv row = ⟨row.n - 1, row.r, row.l + row.r, finv (row.n - 1)⟩ := by
  have hiz : isZeroOf row = 0 := by
    rw [isZeroOf, hprod]
    ring
  have h1 : isZeroOf row * row.n + (1 - isZeroOf row) * (row.n - 1) = row.n - 1 := by
    rw [hiz]
    ring
  have h2 : isZeroOf row * row.r + (1 - isZeroOf row) * (row.l + row.r) = row.l + row.r := by
    rw [hiz]
    ring
  unfold nextRow
  rw [h1, h2]

lemma rowGates_of_honest (hinv : ∀ x : F, x ≠ 0 → x * finv x = 1)
    (cur : DRow F) (hcur : cur.n_inv = finv cur.n) :
    gateNInvExpr cur = 0 ∧ ∀ e ∈ gateFibExprs cur (nextRow finv cur), e = 0 := by
  by_cases hn : cur.n = 0
  · have hiz : isZeroOf cur = 1 := by simp [isZeroOf, hn]
    refine ⟨by simp [gateNInvExpr, hn], ?_⟩
    intro e he
    fin_cases he <;> rw [nextRow_of_n_zero finv cur hn] <;> simp [hiz, hn]
  · have hprod : cur.n * cur.n_inv = 1 := by
      rw [hcur]
      exact hinv cur.n hn
    have hiz : isZeroOf cur = 0 := by
      rw [isZeroOf, hprod]
      ring
    have hg : gateNInvExpr cur = 0 := by
      have h1 : (1 : F) - cur.n * cur.n_inv = isZeroOf cur := rfl
      rw [gateNInvExpr, h1, hiz, mul_zero]
    refine ⟨hg, ?_⟩
    intro e he
    fin_cases he <;> rw [nextRow_of_live finv cur hprod] <;> simp [hiz]

lemma trace_frozen (n0 n1 n : F) (k : ℕ) (hk : (trace finv n0 n1 n k).n = 0) :
    ∀ i : ℕ, 0 < i →
      trace finv n0 n1 n (k + i) =
        ⟨0, (trace finv n0 n1 n k).r, (trace finv n0 n1 n k).r, finv 0⟩ := by
  intro i
  induction i with
  | zero => omega
  | succ i ih =>
    intro _
    rcases Nat.eq_zero_or_pos i with rfl | hpos
    · show nextRow finv (trace finv n0 n1 n (k + 0)) = _
      rw [Nat.add_zero]
      exact nextRow_of_n_zero finv _ hk
    · show nextRow finv (trace finv n0 n1 n (k + i)) = _
      rw [ih hpos]
      exact nextRow_of_n_zero finv _ rfl

lemma trace_live (hinv : ∀ x : F, x ≠ 0 → x * finv x = 1)
    (hchar : (MAX_N : ℕ) < ringChar F) (n : ℕ) (hn : n ≤ MAX_N) :
    ∀ k : ℕ, k ≤ n →
      trace finv 0 1 (n : F) k =
        ⟨((n - k : ℕ) : F), ((fibP k).1 : F), ((fibP k).2 : F), finv ((n - k : ℕ) : F)⟩ := by
  intro k
  induction k with
  | zero =>
    intro _
    show setupRow finv 0 1 (n : F) = _
    rw [setupRow]
    simp [fibP]
  | succ k ih =>
    intro hk1
    have hk : k ≤ n := by omega
    show nextRow finv (trace finv 0 1 (n : F) k) = _
    rw [ih hk]
    have hpos : 0 < n - k := by omega
    have hne : ((n - k : ℕ) : F) ≠ 0 :=
      cast_ne_zero_of_le_char hchar (n - k) hpos (by omega)
    have hprod : ((n - k : ℕ) : F) * finv ((n - k : ℕ) : F) = 1 := hinv _ hne
    rw [nextRow_of_live finv _ hprod]
    have hcastsub : ((n - k : ℕ) : F) - 1 = ((n - (k + 1) : ℕ) : F) := by
      have h1 : (1 : ℕ) ≤ n - k := hpos
      have h2 : n - (k + 1) = (n - k) - 1 := by omega
      rw [h2, Nat.cast_sub h1, Nat.cast_one]
    show (⟨((n - k : ℕ) : F) - 1, ((fibP k).2 : F), ((fibP k).1 : F) + ((fibP k).2 : F),
        finv (((n - k : ℕ) : F) - 1)⟩ : DRow F) = _
    rw [hcastsub]
    have hr2 : ((fibP k).1 : F) + ((fibP k).2 : F) = ((fibP (k + 1)).2 : F) := by
      show _ = (((fibP k).1 + (fibP k).2 : ℕ) : F)
      rw [Nat.cast_add]
    rw [hr2]
    have hl2 : ((fibP k).2 : F) = ((fibP (k + 1)).1 : F) := rfl
    rw [hl2]

end DynFib

end CoreLemmas

section CheckerLemmas

variable {F : Type} [CommRing F] [DecidableEq F] (finv : F → F)

namespace DynFib

lemma gates_all_ok (hinv : ∀ x : F, x ≠ 0 → x * finv x = 1) (n0 n1 n : F) :
    ∀ i ∈ dynEnabledRows, rowGatesOk (traceList finv n0 n1 n) i = true := by
  intro i hi
  have hi2 : i ≤ MAX_N - 2 := (mem_dynEnabledRows i).mp hi
  have hiM : i < MAX_N := by revert hi2; simp [MAX_N]; omega
  have hi1M : i + 1 < MAX_N := by revert hi2; simp [MAX_N]; omega
  have hcur := traceList_getD finv n0 n1 n i hiM defaultDRow
  have hnext := traceList_getD finv n0 n1 n (i + 1) hi1M defaultDRow
  have hstep : trace finv n0 n1 n (i + 1) = nextRow finv (trace finv n0 n1 n i) := rfl
  have hgates := rowGates_of_honest finv hinv (trace finv n0 n1 n i)
    (trace_honest finv n0 n1 n i)
  rw [rowGatesOk, hcur, hnext, hstep]
  rw [Bool.and_eq_true, decide_eq_true_iff, List.all_eq_true]
  refine ⟨hgates.1, ?_⟩
  intro e he
  rw [decide_eq_true_iff]
  exact hgates.2 e he

lemma dynChecker_true_iff (hinv : ∀ x : F, x ≠ 0 → x * finv x = 1)
    (n0 n1 n : F) (inst : DInst F) :
    dynChecker finv n0 n1 n inst = true ↔
      n0 = inst.i0 ∧ n1 = inst.i1 ∧ n = inst.i2 ∧
        (trace finv n0 n1 n (MAX_N - 1)).l = inst.i3 := by
  have hall : dynEnabledRows.all (fun i => rowGatesOk (traceList finv n0 n1 n) i) = true := by
    rw [List.all_eq_true]
    exact gates_all_ok finv hinv n0 n1 n
  have h0 : (0 : ℕ) < MAX_N := by simp [MAX_N]
  have h1 : (1 : ℕ) < MAX_N := by simp [MAX_N]
  have hM : MAX_N - 1 < MAX_N := by simp [MAX_N]
  have hg0 := traceList_getD finv n0 n1 n 0 h0 defaultDRow
  have hg1 := traceList_getD finv n0 n1 n 1 h1 defaultDRow
  have hgM := traceList_getD finv n0 n1 n (MAX_N - 1) hM defaultDRow
  have ht0l : (trace finv n0 n1 n 0).l = n0 := rfl
  have ht0n : (trace finv n0 n1 n 0).n = n := rfl
  have ht1l : (trace finv n0 n1 n 1).l = n1 := rfl
  rw [dynChecker, dynCheckTrace, hall, hg0, hg1, hgM, ht0l, ht0n, ht1l, Bool.true_and]
  simp only [Bool.and_eq_true, decide_eq_true_iff]
  constructor
  · rintro ⟨⟨⟨ha, hb⟩, hc⟩, hd⟩
    exact ⟨ha, hb, hc, hd⟩
  · rintro ⟨ha, hb, hc, hd⟩
    exact ⟨⟨⟨ha, hb⟩, hc⟩, hd⟩

lemma trace_result (hinv : ∀ x : F, x ≠ 0 → x * finv x = 1)
    (hchar : (MAX_N : ℕ) < ringChar F) (n : ℕ) (h1 : 0 < n) (h2 : n ≤ MAX_N - 2) :
    (trace finv 0 1 (n : F) (MAX_N - 1)).l = ((fibRef n : ℕ) : F) ∧
      (trace finv 0 1 (n : F) (MAX_N - 1)).n = 0 ∧
      (trace finv 0 1 (n : F) (MAX_N - 1)).r = ((fibRef n : ℕ) : F) := by
  have hnM : n ≤ MAX_N := by revert h2; simp [MAX_N]; omega
  have hlive := trace_live finv hinv hchar n hnM n le_rfl
  have hzero : (trace finv 0 1 (n : F) n).n = 0 := by
    rw [hlive]
    simp
  have hrn : (trace finv 0 1 (n : F) n).r = ((fibRef n : ℕ) : F) := by
    rw [hlive]
    rfl
  have hidx : MAX_N - 1 = n + (MAX_N - 1 - n) := by revert h2; simp [MAX_N]; omega
  have hposdiff : 0 < MAX_N - 1 - n := by revert h2; simp [MAX_N]; omega
  have hfro := trace_frozen finv 0 1 (n : F) n hzero (MAX_N - 1 - n) hposdiff
  rw [hidx, hfro, hrn]
  exact ⟨rfl, rfl, rfl⟩

end DynFib

end CheckerLemmas

section ClaimTheorems

lemma fibP_succ_fst (k : ℕ) : (fibP (k + 1)).1 = fibRef k := rfl

/-- C1 (amended): for every `n` with `0 < n < MAX_N - 1` and seeds `(0,1)`,
the dynamic builder's trace binds as its public result (the `l` cell of the
last row) the reference Fibonacci value `fibRef n`, and the backend checker
accepts the trace against public inputs `(0, 1, n, fibRef n)`.  The bound
`n < MAX_N - 1` (rather than the claimed `n < MAX_N`) is forced: at
`n = MAX_N - 1` no frozen row remains and the bound cell holds `fibRef (n-1)`
instead. -/
theorem c1_dyn_result_accepted {F : Type} [CommRing F] [DecidableEq F]
    (finv : F → F) (hinv : ∀ x : F, x ≠ 0 → x * finv x = 1)
    (hchar : (DynFib.MAX_N : ℕ) < ringChar F)
    (n : ℕ) (h1 : 0 < n) (h2 : n ≤ DynFib.MAX_N - 2) :
    (DynFib.trace finv 0 1 (n : F) (DynFib.MAX_N - 1)).l = ((fibRef n : ℕ) : F) ∧
      DynFib.dynChecker finv 0 1 (n : F)
        ⟨0, 1, (n : F), ((fibRef n : ℕ) : F)⟩ = true := by
  have hres := DynFib.trace_result finv hinv hchar n h1 h2
  refine ⟨hres.1, ?_⟩
  rw [DynFib.dynChecker_true_iff finv hinv]
  exact ⟨rfl, rfl, rfl, hres.1⟩

/-- C1 witness: the spec's concrete scenario — seeds `(0,1)`, `n = 5`,
reference value `fibRef 5 = 8`, checker accepts `(0, 1, 5, 8)`. -/
theorem c1_dyn_result_accepted_witness :
    fibRef 5 = 8 ∧
      (DynFib.trace finv373 0 1 ((5 : ℕ) : ZMod 373) (DynFib.MAX_N - 1)).l =
        ((fibRef 5 : ℕ) : ZMod 373) ∧
      DynFib.dynChecker finv373 0 1 ((5 : ℕ) : ZMod 373)
        ⟨0, 1, ((5 : ℕ) : ZMod 373), ((fibRef 5 : ℕ) : ZMod 373)⟩ = true := by
  refine ⟨by decide, ?_, ?_⟩
  · exact (c1_dyn_result_accepted finv373 hinv373 hchar373 5 (by norm_num)
      (by norm_num [DynFib.MAX_N])).1
  · exact (c1_dyn_result_accepted finv373 hinv373 hchar373 5 (by norm_num)
      (by norm_num [DynFib.MAX_N])).2

/-- C1 counterexample: at `n = MAX_N - 1 = 369` (which the claim's range
`0 < n < MAX_N` includes) the checker rejects the public inputs
`(0, 1, 369, fibRef 369)` that the claim says it accepts: the final live step
lands exactly on the last row, so the bound cell holds `fibRef 368`. -/
theorem c1_dyn_result_cex :
    DynFib.dynChecker finv373 0 1 ((369 : ℕ) : ZMod 373)
      ⟨0, 1, ((369 : ℕ) : ZMod 373), ((fibRef 369 : ℕ) : ZMod 373)⟩ = false := by
  have hidx : DynFib.MAX_N - 1 = 369 := by norm_num [DynFib.MAX_N]
  have hlive := DynFib.trace_live finv373 hinv373 hchar373 369
    (by norm_num [DynFib.MAX_N]) 369 le_rfl
  have hne : (((fibP 369).1 : ℕ) : ZMod 373) ≠ ((fibRef 369 : ℕ) : ZMod 373) := by decide
  rw [Bool.eq_false_iff]
  intro hck
  rw [DynFib.dynChecker_true_iff finv373 hinv373] at hck
  have h3 := hck.2.2.2
  rw [hidx, hlive] at h3
  exact hne h3

/-- C2 (amended): for every `n` with `0 < n < MAX_N - 1`, checking the built
trace against public inputs whose result component `bad` differs from
`fibRef n` makes the checker report failure, and checking against the
matching result reports success.  As with C1 the range excludes
`n = MAX_N - 1`, where the stale value `fibRef (n-1)` is accepted instead. -/
theorem c2_dyn_soundness {F : Type} [CommRing F] [DecidableEq F]
    (finv : F → F) (hinv : ∀ x : F, x ≠ 0 → x * finv x = 1)
    (hchar : (DynFib.MAX_N : ℕ) < ringChar F)
    (n : ℕ) (h1 : 0 < n) (h2 : n ≤ DynFib.MAX_N - 2)
    (bad : F) (hbad : bad ≠ ((fibRef n : ℕ) : F)) :
    DynFib.dynChecker finv 0 1 (n : F) ⟨0, 1, (n : F), bad⟩ = false ∧
      DynFib.dynChecker finv 0 1 (n : F)
        ⟨0, 1, (n : F), ((fibRef n : ℕ) : F)⟩ = true := by
  have hres := DynFib.trace_result finv hinv hchar n h1 h2
  constructor
  · rw [Bool.eq_false_iff]
    intro hck
    rw [DynFib.dynChecker_true_iff finv hinv] at hck
    have h3 := hck.2.2.2
    rw [hres.1] at h3
    exact hbad h3.symm
  · rw [DynFib.dynChecker_true_iff finv hinv]
    exact ⟨rfl, rfl, rfl, hres.1⟩

/-- C2 witness: the spec's scenario at `n = 5` — the wrong public result `18`
is rejected and the correct result `fibRef 5 = 8` is accepted. -/
theorem c2_dyn_soundness_witness :
    DynFib.dynChecker finv373 0 1 ((5 : ℕ) : ZMod 373)
      ⟨0, 1, ((5 : ℕ) : ZMod 373), (18 : ZMod 373)⟩ = false ∧
      DynFib.dynChecker finv373 0 1 ((5 : ℕ) : ZMod 373)
        ⟨0, 1, ((5 : ℕ) : ZMod 373), ((fibRef 5 : ℕ) : ZMod 373)⟩ = true :=
  c2_dyn_soundness finv373 hinv373 hchar373 5 (by norm_num)
    (by norm_num [DynFib.MAX_N]) 18 (by decide)

/-- C2 counterexample: at `n = 369` (inside the claimed range) the checker
accepts the public result `fibRef 368`, which differs from the true
`fibRef 369` — so a wrong public result is reported as success there. -/
theorem c2_dyn_soundness_cex :
    ((fibRef 368 : ℕ) : ZMod 373) ≠ ((fibRef 369 : ℕ) : ZMod 373) ∧
      DynFib.dynChecker finv373 0 1 ((369 : ℕ) : ZMod 373)
        ⟨0, 1, ((369 : ℕ) : ZMod 373), ((fibRef 368 : ℕ) : ZMod 373)⟩ = true := by
  constructor
  · decide
  · rw [DynFib.dynChecker_true_iff finv373 hinv373]
    refine ⟨rfl, rfl, rfl, ?_⟩
    have hidx : DynFib.MAX_N - 1 = 369 := by norm_num [DynFib.MAX_N]
    have hlive := DynFib.trace_live finv373 hinv373 hchar373 369
      (by norm_num [DynFib.MAX_N]) 369 le_rfl
    rw [hidx, hlive]
    show (((fibP 369).1 : ℕ) : ZMod 373) = ((fibRef 368 : ℕ) : ZMod 373)
    decide

end ClaimTheorems

section PaddingLemmas

variable {F : Type} [CommRing F] [DecidableEq F] (finv : F → F)

namespace DynFib

lemma trace_padding (hinv : ∀ x : F, x ≠ 0 → x * finv x = 1)
    (hchar : (MAX_N : ℕ) < ringChar F) (n : ℕ) (h1 : 0 < n) (hnM : n ≤ MAX_N) :
    ∀ m : ℕ, n ≤ m →
      (trace finv 0 1 (n : F) m).n = 0 ∧
        (trace finv 0 1 (n : F) m).r = ((fibRef n : ℕ) : F) := by
  have hlive := trace_live finv hinv hchar n hnM n le_rfl
  have hzero : (trace finv 0 1 (n : F) n).n = 0 := by
    rw [hlive]
    simp
  have hrn : (trace finv 0 1 (n : F) n).r = ((fibRef n : ℕ) : F) := by
    rw [hlive]
    rfl
  intro m hm
  rcases Nat.eq_or_lt_of_le hm with rfl | hlt
  · exact ⟨hzero, hrn⟩
  · have hidx : m = n + (m - n) := by omega
    have hfro := trace_frozen finv 0 1 (n : F) n hzero (m - n) (by omega)
    rw [hidx, hfro, hrn]
    exact ⟨rfl, rfl⟩

end DynFib

end PaddingLemmas

/-- C4: once the counter reaches 0, every later row up to `MAX_N - 1` holds
the identical pair `(counter = 0, result)`; the frozen state is a fixed point
of `assign_next_row`'s step; and a trace in which a padding row's result cell
drifts to any `c ≠ fibRef n` is rejected by the checker. -/
theorem c4_padding_idempotent {F : Type} [CommRing F] [DecidableEq F]
    (finv : F → F) (hinv : ∀ x : F, x ≠ 0 → x * finv x = 1)
    (hchar : (DynFib.MAX_N : ℕ) < ringChar F)
    (n j : ℕ) (c : F) (h1 : 0 < n) (h2 : n ≤ DynFib.MAX_N - 2)
    (hj1 : n < j) (hj2 : j ≤ DynFib.MAX_N - 1)
    (hc : c ≠ ((fibRef n : ℕ) : F)) :
    (DynFib.trace finv 0 1 (n : F) j).n = 0 ∧
      (DynFib.trace finv 0 1 (n : F) j).r = ((fibRef n : ℕ) : F) ∧
      (DynFib.nextRow finv (DynFib.trace finv 0 1 (n : F) j)).n = 0 ∧
      (DynFib.nextRow finv (DynFib.trace finv 0 1 (n : F) j)).r =
        (DynFib.trace finv 0 1 (n : F) j).r ∧
      DynFib.dynCheckTrace (DynFib.setRowR (DynFib.traceList finv 0 1 (n : F)) j c)
        ⟨0, 1, (n : F), ((fibRef n : ℕ) : F)⟩ = false := by
  have hM : DynFib.MAX_N = 370 := rfl
  have hnM : n ≤ DynFib.MAX_N := by omega
  have hpadj := DynFib.trace_padding finv hinv hchar n h1 hnM j (by omega)
  have hfix := DynFib.nextRow_of_n_zero finv (DynFib.trace finv 0 1 (n : F) j) hpadj.1
  refine ⟨hpadj.1, hpadj.2, by rw [hfix], by rw [hfix], ?_⟩
  have hpadj1 := DynFib.trace_padding finv hinv hchar n h1 hnM (j - 1) (by omega)
  have hjlen : j < (DynFib.traceList finv 0 1 (n : F)).length := by
    rw [DynFib.traceList_length]
    omega
  have hcur : (DynFib.setRowR (DynFib.traceList finv 0 1 (n : F)) j c).getD (j - 1)
      DynFib.defaultDRow = DynFib.trace finv 0 1 (n : F) (j - 1) := by
    rw [DynFib.setRowR, getD_set_ne_of_ne _ _ _ _ _ (by omega),
      DynFib.traceList_getD finv 0 1 (n : F) (j - 1) (by omega) DynFib.defaultDRow]
  have hnext : ((DynFib.setRowR (DynFib.traceList finv 0 1 (n : F)) j c).getD j
      DynFib.defaultDRow).r = c := by
    rw [DynFib.setRowR, getD_set_eq_of_lt _ _ _ _ hjlen]
  have hgatef : DynFib.rowGatesOk (DynFib.setRowR (DynFib.traceList finv 0 1 (n : F)) j c)
      (j - 1) = false := by
    rw [Bool.eq_false_iff]
    intro hok
    rw [DynFib.rowGatesOk, Bool.and_eq_true, List.all_eq_true] at hok
    have hidx1 : j - 1 + 1 = j := by omega
    have he2 := hok.2 (DynFib.isZeroOf ((DynFib.setRowR (DynFib.traceList finv 0 1 (n : F))
        j c).getD (j - 1) DynFib.defaultDRow) *
        (((DynFib.setRowR (DynFib.traceList finv 0 1 (n : F)) j c).getD (j - 1 + 1)
          DynFib.defaultDRow).r -
          ((DynFib.setRowR (DynFib.traceList finv 0 1 (n : F)) j c).getD (j - 1)
            DynFib.defaultDRow).r))
      (by simp [DynFib.gateFibExprs])
    rw [decide_eq_true_iff] at he2
    rw [hidx1, hcur, hnext] at he2
    have hiz1 : DynFib.isZeroOf (DynFib.trace finv 0 1 (n : F) (j - 1)) = 1 := by
      rw [DynFib.isZeroOf, hpadj1.1]
      ring
    rw [hiz1, hpadj1.2, one_mul, sub_eq_zero] at he2
    exact hc he2
  rw [DynFib.dynCheckTrace]
  have hallf : DynFib.dynEnabledRows.all
      (fun i => DynFib.rowGatesOk (DynFib.setRowR (DynFib.traceList finv 0 1 (n : F)) j c) i) =
      false := by
    rw [Bool.eq_false_iff]
    intro hall
    rw [List.all_eq_true] at hall
    have := hall (j - 1) ((DynFib.mem_dynEnabledRows (j - 1)).mpr (by omega))
    rw [hgatef] at this
    simp at this
  rw [hallf]
  simp

/-- C4 witness: at `n = 5`, `j = 7`, tampered value `c = 9 ≠ fibRef 5 = 8`,
over `ZMod 373`. -/
theorem c4_padding_idempotent_witness :
    (DynFib.trace finv373 0 1 ((5 : ℕ) : ZMod 373) 7).n = 0 ∧
      (DynFib.trace finv373 0 1 ((5 : ℕ) : ZMod 373) 7).r = ((fibRef 5 : ℕ) : ZMod 373) ∧
      (DynFib.nextRow finv373 (DynFib.trace finv373 0 1 ((5 : ℕ) : ZMod 373) 7)).n = 0 ∧
      (DynFib.nextRow finv373 (DynFib.trace finv373 0 1 ((5 : ℕ) : ZMod 373) 7)).r =
        (DynFib.trace finv373 0 1 ((5 : ℕ) : ZMod 373) 7).r ∧
      DynFib.dynCheckTrace
        (DynFib.setRowR (DynFib.traceList finv373 0 1 ((5 : ℕ) : ZMod 373)) 7 (9 : ZMod 373))
        ⟨0, 1, ((5 : ℕ) : ZMod 373), ((fibRef 5 : ℕ) : ZMod 373)⟩ = false :=
  c4_padding_idempotent finv373 hinv373 hchar373 5 7 9 (by norm_num)
    (by norm_num [DynFib.MAX_N]) (by norm_num) (by norm_num [DynFib.MAX_N]) (by decide)

/-- C5 (amended): the dynamic trace builder performs no out-of-bound check at
all — for every input `n` (in particular `n ≥ MAX_N`) `synthesize` returns
`Ok` and assigns the full `MAX_N`-row trace; an out-of-bound `n` is never
rejected before assignment. -/
theorem c5_no_fail_fast {F : Type} [CommRing F] [DecidableEq F]
    (finv : F → F) (n0 n1 n : F) :
    (DynFib.dynSynthesize finv n0 n1 n).isOk = true ∧
      (DynFib.traceList finv n0 n1 n).length = DynFib.MAX_N :=
  ⟨rfl, DynFib.traceList_length finv n0 n1 n⟩

/-- C5 counterexample: for the out-of-bound input `n = 370 = MAX_N` the
builder still returns `Ok` with a full `MAX_N`-row trace (no fail-fast
rejection), and the trace is still live at its last row (counter `= 1`), so
the overflow surfaces at constraint-check time, not before assignment. -/
theorem c5_no_fail_fast_cex :
    (DynFib.dynSynthesize finv373 0 1 ((370 : ℕ) : ZMod 373)).isOk = true ∧
      (DynFib.traceList finv373 0 1 ((370 : ℕ) : ZMod 373)).length = DynFib.MAX_N ∧
      (DynFib.trace finv373 0 1 ((370 : ℕ) : ZMod 373) (DynFib.MAX_N - 1)).n =
        ((1 : ℕ) : ZMod 373) := by
  refine ⟨rfl, DynFib.traceList_length finv373 0 1 _, ?_⟩
  have hidx : DynFib.MAX_N - 1 = 369 := by norm_num [DynFib.MAX_N]
  have hlive := DynFib.trace_live finv373 hinv373 hchar373 370
    (by norm_num [DynFib.MAX_N]) 369 (by norm_num)
  rw [hidx, hlive]

/-- C3: the zero-test gadget polynomial `n * (1 - n * n_inv)`: when `n = 0`
the identity is satisfied for every `n_inv` and the predicate
`is_zero = 1 - n * n_inv` evaluates to 1 under the honest assignment
`n_inv = 0`; when `n ≠ 0` the identity holds iff `n_inv` is the field inverse
of `n`, in which case the predicate evaluates to 0. -/
theorem c3_zero_test_gadget {F : Type} [Field F] (n l r ni : F) :
    (n = 0 → DynFib.gateNInvExpr (⟨n, l, r, ni⟩ : DynFib.DRow F) = 0) ∧
      DynFib.isZeroOf (⟨0, l, r, 0⟩ : DynFib.DRow F) = 1 ∧
      (n ≠ 0 → (DynFib.gateNInvExpr (⟨n, l, r, ni⟩ : DynFib.DRow F) = 0 ↔ ni = n⁻¹)) ∧
      (n ≠ 0 → ni = n⁻¹ → DynFib.isZeroOf (⟨n, l, r, ni⟩ : DynFib.DRow F) = 0) := by
  refine ⟨?_, ?_, ?_, ?_⟩
  · intro h
    show n * (1 - n * ni) = 0
    rw [h, zero_mul]
  · show (1 : F) - 0 * 0 = 1
    ring
  · intro hn
    show n * (1 - n * ni) = 0 ↔ ni = n⁻¹
    constructor
    · intro h
      rcases mul_eq_zero.mp h with h0 | h1
      · exact absurd h0 hn
      · have h2 : n * ni = 1 := (sub_eq_zero.mp h1).symm
        calc ni = n⁻¹ * n * ni := by rw [inv_mul_cancel₀ hn, one_mul]
          _ = n⁻¹ * (n * ni) := by ring
          _ = n⁻¹ := by rw [h2, mul_one]
    · intro h
      rw [h, mul_inv_cancel₀ hn, sub_self, mul_zero]
  · intro hn h
    show (1 : F) - n * ni = 0
    rw [h, mul_inv_cancel₀ hn, sub_self]

/-- C3 witness: over `ZMod 373` with `n = 2` and `n_inv = 187` (the inverse
of 2, since `2 * 187 = 374 = 1`). -/
theorem c3_zero_test_gadget_witness :
    ((2 : ZMod 373) = 0 →
        DynFib.gateNInvExpr (⟨2, 0, 0, 187⟩ : DynFib.DRow (ZMod 373)) = 0) ∧
      DynFib.isZeroOf (⟨0, 0, 0, 0⟩ : DynFib.DRow (ZMod 373)) = 1 ∧
      ((2 : ZMod 373) ≠ 0 →
        (DynFib.gateNInvExpr (⟨2, 0, 0, 187⟩ : DynFib.DRow (ZMod 373)) = 0 ↔
          (187 : ZMod 373) = 2⁻¹)) ∧
      ((2 : ZMod 373) ≠ 0 → (187 : ZMod 373) = 2⁻¹ →
        DynFib.isZeroOf (⟨2, 0, 0, 187⟩ : DynFib.DRow (ZMod 373)) = 0) :=
  c3_zero_test_gadget 2 0 0 187

/-- C6 (amended): the dynamic variant assigns exactly `MAX_N` rows whatever
the input (the loop bounds do not mention `n`), but the simple variant
(`fib_simple.rs`) assigns exactly `n` rows, so its trace length does depend
on the input. -/
theorem c6_trace_length (n : ℕ) (hn : 1 ≤ n) :
    DynFib.dynAssignedRows.length = DynFib.MAX_N ∧
      (SimpleFib.assignedRows n).length = n := by
  constructor
  · rw [DynFib.dynAssignedRows]
    simp [DynFib.MAX_N]
  · rw [SimpleFib.assignedRows]
    simp [List.length_range']
    omega

/-- C6 witness: at `n = 5`. -/
theorem c6_trace_length_witness :
    DynFib.dynAssignedRows.length = DynFib.MAX_N ∧
      (SimpleFib.assignedRows 5).length = 5 :=
  c6_trace_length 5 (by norm_num)

/-- C6 counterexample: the simple variant's assigned-row count differs
between inputs 3 and 5, so the built trace does not have a fixed number of
rows regardless of `n`. -/
theorem c6_trace_length_cex :
    (SimpleFib.assignedRows 3).length = 3 ∧ (SimpleFib.assignedRows 5).length = 5 ∧
      (SimpleFib.assignedRows 3).length ≠ (SimpleFib.assignedRows 5).length := by
  refine ⟨by decide, by decide, by decide⟩

/-- C7 (amended): `assign_first_row` seeds row 0 with
`(n, l, r, s) = (instance[0], 1, 1, 1)` but enables BOTH the first-row
selector and the step-gate selector there; the step gate is active on row 0. -/
theorem c7_first_row_enables {F : Type} [CommRing F] (i0 : F) :
    (MainFib.assignFirstRow i0).selectors = [MainFib.MSel.fistRow, MainFib.MSel.fibS] ∧
      (MainFib.assignFirstRow i0).vals = (⟨i0, 1, 1, 1⟩ : MainFib.MRow F) :=
  ⟨rfl, rfl⟩

/-- C7 counterexample: the step-gate selector `fib_selector` IS enabled on
row 0 (`assign_first_row`, `src/main.rs` line 148), and in the dynamic
variant the single shared selector gating the step gate is likewise enabled
on row 0 — contradicting "the step gate's selector is not enabled on row 0". -/
theorem c7_first_row_enables_cex :
    MainFib.MSel.fibS ∈ (MainFib.assignFirstRow (0 : ZMod 373)).selectors ∧
      (0 : ℕ) ∈ DynFib.dynEnabledRows := by
  constructor
  · decide
  · exact (DynFib.mem_dynEnabledRows 0).mpr (by norm_num [DynFib.MAX_N])

/-- C8: on a run of consecutive rows where the "custom selector" gate is
enabled and both of its polynomials vanish (`s * (1 - s)` and
`s_next * (1 - s)`), the active flag is monotone non-increasing: once `s = 0`
on a row, `s = 0` on every later row of the run. -/
theorem c8_custom_selector_monotone {F : Type} [CommRing F] (s : ℕ → F) (a b : ℕ)
    (hgate : ∀ i, a ≤ i → i < b →
      ∀ e ∈ MainFib.gateCustomSelector (s i) (s (i + 1)), e = 0)
    (k j : ℕ) (hak : a ≤ k) (hkj : k ≤ j) (hjb : j ≤ b) (hk : s k = 0) : s j = 0 := by
  have H : ∀ j' : ℕ, k ≤ j' → j' ≤ b → s j' = 0 := by
    intro j' hj'
    induction j', hj' using Nat.le_induction with
    | base => intro _; exact hk
    | succ m hkm ih =>
      intro hm1b
      have hsm : s m = 0 := ih (by omega)
      have hg := hgate m (le_trans hak hkm) (by omega)
        (s (m + 1) * (1 - s m)) (by simp [MainFib.gateCustomSelector])
      rw [hsm] at hg
      calc s (m + 1) = s (m + 1) * (1 - 0) := by ring
        _ = 0 := hg
  exact H j hkj hjb

/-- C8 witness: the concrete flag sequence `padSeq` (active for two rows then
inactive) on the gated run `[0, 4)`, falling at row 2, stays 0 at row 4. -/
theorem c8_custom_selector_monotone_witness : padSeq 4 = 0 :=
  c8_custom_selector_monotone padSeq 0 4
    (by intro i _ hi; interval_cases i <;> decide)
    2 4 (by norm_num) (by norm_num) (by norm_num) (by decide)

/-- C9: the "start status" gate expression
`(fixed - l) * (fixed - r) * (fixed - s)` vanishes whenever at least one of
`l`, `r`, `s` equals the fixed value; in particular it vanishes with
`l = fixed = 1` and `r = 0 ≠ fixed`, so the gate alone does not pin all three
first-row cells. -/
theorem c9_start_status_not_pinning {F : Type} [CommRing F] [Nontrivial F]
    (f l r s : F) (h : l = f ∨ r = f ∨ s = f) :
    MainFib.gateStartStatus f l r s = 0 ∧
      MainFib.gateStartStatus (1 : F) 1 0 0 = 0 ∧ (0 : F) ≠ (1 : F) := by
  refine ⟨?_, ?_, zero_ne_one⟩
  · rcases h with h' | h' | h' <;> simp [MainFib.gateStartStatus, h']
  · simp [MainFib.gateStartStatus]

/-- C9 witness: over `ZMod 373` with `fixed = l = 2`, `r = 9`, `s = 1`. -/
theorem c9_start_status_not_pinning_witness :
    MainFib.gateStartStatus (2 : ZMod 373) 2 9 1 = 0 ∧
      MainFib.gateStartStatus (1 : ZMod 373) 1 0 0 = 0 ∧ (0 : ZMod 373) ≠ 1 :=
  c9_start_status_not_pinning 2 2 9 1 (Or.inl rfl)

/-- C10: the dynamic variant's selector is enabled exactly on rows
`0 .. MAX_N - 2` — never on the last assigned row `MAX_N - 1` — so a row is
selector-enabled precisely when its successor row is assigned within the
trace. -/
theorem c10_selector_next_row_safe (i : ℕ) :
    (i ∈ DynFib.dynEnabledRows ↔ i ≤ DynFib.MAX_N - 2) ∧
      (DynFib.MAX_N - 1) ∉ DynFib.dynEnabledRows ∧
      (i ∈ DynFib.dynEnabledRows ↔ i + 1 ∈ DynFib.dynAssignedRows) := by
  have hM : DynFib.MAX_N = 370 := rfl
  refine ⟨DynFib.mem_dynEnabledRows i, ?_, ?_⟩
  · rw [DynFib.mem_dynEnabledRows]
    omega
  · rw [DynFib.mem_dynEnabledRows, DynFib.mem_dynAssignedRows]
    omega
